import Mathlib

/-!
Verification of `fix-db-imports.py`, a one-shot maintenance script that
patches five TypeScript files by two `re.sub` substitutions:

* Transform A inserts a database-connection setup block after an
  authorization-guard clause matched by the regex
  `(if \(!auth\) \\x7b\s+return res\.status\(401\)\.json\(\\x7b error: [\x27\x22]Unauthorized[\x27\x22] \\x7d\);\s+\\x7d)\s+`,
  replacing each match by group 1, two newlines, and the setup block.
* Transform B replaces the regex `(\n\\x7d)\s*$` (the final newline + closing
  brace plus trailing whitespace) by a fixed teardown suffix.

The file content is modelled as `List Char`.  Python's `\s` is modelled by
`isPySpace`, its ASCII fragment `[ \t\n\r\x0b\x0c]` (the patched files are
ASCII source text).  Both regexes are implemented as executable matchers with
Python's leftmost, greedy, non-overlapping `re.sub` semantics; for these
patterns every `\s+`/`\s*` is followed by a non-whitespace literal or lies at
the end of the pattern, so greedy maximal munch is exact.
-/

namespace FixDb

/-- ASCII fragment of Python's `\s` character class. -/
def isPySpace (c : Char) : Bool :=
  c = ' ' || c = '\t' || c = '\n' || c = '\r' || c = '\x0b' || c = '\x0c'

/-- All characters are whitespace. -/
def allSpace (l : List Char) : Bool := l.all isPySpace

/-- The list is empty or starts with a non-whitespace character. -/
def noSpaceHead (l : List Char) : Bool :=
  match l with
  | [] => true
  | c :: _ => !isPySpace c

/-- Match a literal token at the front of the input, returning the rest. -/
def matchLit : List Char → List Char → Option (List Char)
  | [], s => some s
  | _ :: _, [] => none
  | c :: cs, d :: ds => if c = d then matchLit cs ds else none

/-- Literal head of the guard regex: `if (!auth) \x7b`. -/
def lit1 : List Char := "if (!auth) \x7b".data

/-- Literal middle of the guard regex: `return res.status(401).json(\x7b error: `. -/
def lit2 : List Char := "return res.status(401).json(\x7b error: ".data

/-- Literal `Unauthorized`. -/
def litU : List Char := "Unauthorized".data

/-- Literal ` \x7d);` closing the `.json(...)` call. -/
def lit4 : List Char := " \x7d);".data

/-- Closing brace character. -/
def rbChar : Char := '\x7d'

/-- Newline character. -/
def nlChar : Char := '\n'

/-- Single quote character. -/
def quChar : Char := '\x27'

/-- The `[\x27\x22]` character class of the guard regex. -/
def isQuote (c : Char) : Bool := c = '\x27' || c = '\x22'

/-- The `db_connection_code` template of the script, byte for byte
(including the trailing space after `postgres(databaseUrl, \x7b` and the
final newline). -/
def dbCode : List Char :=
  ("  // Create database connection\n  const databaseUrl = process.env.DATABASE_URL;\n  if (!databaseUrl) \x7b\n    return res.status(500).json(\x7b error: \x27Database not configured\x27 \x7d);\n  \x7d\n\n  const sql = postgres(databaseUrl, \x7b \n    prepare: false,\n    max: 1,\n  \x7d);\n  const db = drizzle(sql);\n\n  try \x7b\n").data

/-- The `\n\n` that the replacement template `\1\n\n` of Transform A puts
between the guard and the setup block. -/
def sepA : List Char := "\n\n".data

/-- The replacement text of Transform B:
`\n  \x7d finally \x7b\n    await sql.end();\n  \x7d\n\x7d`. -/
def tdRepl : List Char := "\n  \x7d finally \x7b\n    await sql.end();\n  \x7d\n\x7d".data

/-- Try to match the guard regex at the head of `s`.  On success, return the
text of capture group 1 (the guard itself, internal whitespace as matched)
and the rest of the input after the whole match (group 1 plus the trailing
`\s+`).  Greedy maximal munch for each `\s+` is exact here because the
following literal starts with a non-whitespace character (or the `\s+` ends
the pattern). -/
def matchGuardAt (s : List Char) : Option (List Char × List Char) :=
  match matchLit lit1 s with
  | none => none
  | some s1 =>
    let w1 := s1.takeWhile isPySpace
    if w1.isEmpty then none else
    match matchLit lit2 (s1.dropWhile isPySpace) with
    | none => none
    | some s2 =>
      match s2 with
      | [] => none
      | q1 :: r2 =>
        if isQuote q1 then
          match matchLit litU r2 with
          | none => none
          | some s3 =>
            match s3 with
            | [] => none
            | q2 :: r3 =>
              if isQuote q2 then
                match matchLit lit4 r3 with
                | none => none
                | some s4 =>
                  let w2 := s4.takeWhile isPySpace
                  if w2.isEmpty then none else
                  match s4.dropWhile isPySpace with
                  | [] => none
                  | c5 :: r5 =>
                    if c5 = rbChar then
                      let w3 := r5.takeWhile isPySpace
                      if w3.isEmpty then none
                      else some (lit1 ++ w1 ++ lit2 ++ q1 :: litU ++ q2 :: lit4 ++ w2 ++ [rbChar],
                                 r5.dropWhile isPySpace)
                    else none
              else none
        else none

/-- One left-to-right `re.sub` pass of Transform A, fuelled (the fuel is an
upper bound on the number of scan positions; `subA` supplies the input
length, which suffices since every step consumes at least one character). -/
def subAGo : Nat → List Char → List Char
  | 0, s => s
  | _ + 1, [] => []
  | n + 1, c :: cs =>
    match matchGuardAt (c :: cs) with
    | some (g, rest) => g ++ sepA ++ dbCode ++ subAGo n rest
    | none => c :: subAGo n cs

/-- Transform A: `re.sub` of the guard regex, replacing every match by
group 1, two newlines and the setup block. -/
def subA (s : List Char) : List Char := subAGo s.length s

/-- No position of `s` matches the guard regex (the file "does not contain
the authorization-guard pattern"). -/
def guardFree : List Char → Bool
  | [] => true
  | c :: cs => (matchGuardAt (c :: cs)).isNone && guardFree cs

/-- No position of `s` before index `k` matches the guard regex. -/
def matchFreeBefore : List Char → Nat → Bool
  | _, 0 => true
  | [], _ + 1 => true
  | c :: cs, k + 1 => (matchGuardAt (c :: cs)).isNone && matchFreeBefore cs k

/-- Transform B's regex `(\n\x7d)\s*$` matches at the position of `c`
followed by `cs`: a newline, a closing brace, then whitespace only up to the
end of the string (Python's `$`, reached by the greedy `\s*`). -/
def isTailMatch (c : Char) (cs : List Char) : Bool :=
  c = nlChar &&
    (match cs with
     | [] => false
     | d :: rest => d = rbChar && allSpace rest)

/-- Transform B: `re.sub` of `(\n\x7d)\s*$`.  The pattern can match at most
once (the brace of a match forbids any earlier all-whitespace tail), and a
match extends to the end of the string, so the scan stops after replacing. -/
def subB : List Char → List Char
  | [] => []
  | c :: cs => if isTailMatch c cs then tdRepl else c :: subB cs

/-- Some position of `s` starts a match of Transform B's regex, i.e. `s`
ends with a newline, a closing brace and optional trailing whitespace. -/
def hasTail : List Char → Bool
  | [] => false
  | c :: cs => isTailMatch c cs || hasTail cs

/-- The whole per-file patch: Transform A then Transform B, as the script
applies them to the file content. -/
def patchContent (s : List Char) : List Char := subB (subA s)

/-- `s` starts with the literal `pat`. -/
def startsWithList (pat s : List Char) : Bool := (matchLit pat s).isSome

/-- `pat` occurs somewhere in `s` (as a contiguous substring). -/
def containsSub (pat : List Char) : List Char → Bool
  | [] => startsWithList pat []
  | c :: cs => startsWithList pat (c :: cs) || containsSub pat cs

/-- Number of positions of `s` where `pat` starts (occurrences may overlap). -/
def countSub (pat : List Char) : List Char → Nat
  | [] => if startsWithList pat [] then 1 else 0
  | c :: cs => (if startsWithList pat (c :: cs) then 1 else 0) + countSub pat cs

/-!
The driver loop of the script.  The filesystem is modelled as a map from
path to optional text content; reading a missing path is the modelled read
failure (Python raises `FileNotFoundError`, whose message `str(e)` is
`[Errno 2] No such file or directory: (the quoted path)`).  The `try`/`except`
around the body of the `for` loop is modelled by `Except` caught in `step`.
-/

/-- A filesystem state: each path holds text content or is absent. -/
abbrev FS : Type := String → Option (List Char)

/-- The hardcoded list of target paths of the script. -/
def files : List String :=
  ["api/tenants/index.ts",
   "api/units/index.ts",
   "api/leases/index.ts",
   "api/payments/index.ts",
   "api/dashboard/stats.ts"]

/-- `str(e)` for the `FileNotFoundError` raised by `open(p)` on a missing
path. -/
def fnfMsg (p : String) : String :=
  "[Errno 2] No such file or directory: \x27" ++ p ++ "\x27"

/-- `open(filepath, 'r'); f.read()`: the content, or the exception message. -/
def readFile (fs : FS) (p : String) : Except String (List Char) :=
  match fs p with
  | some c => Except.ok c
  | none => Except.error (fnfMsg p)

/-- The body of the `try` block for one path: read, patch, write back,
return the new filesystem and the success line `Fixed (path)`. -/
def processFileE (fs : FS) (p : String) :
    Except String ((String → Option (List Char)) × String) :=
  match readFile fs p with
  | Except.error e => Except.error e
  | Except.ok content =>
    Except.ok (fun q => if q = p then some (patchContent content) else fs q,
               "Fixed " ++ p)

/-- One iteration of the `for` loop with its `except Exception` handler: on
failure the filesystem is untouched and the error line is printed. -/
def step (fs : FS) (p : String) : FS × String :=
  match processFileE fs p with
  | Except.ok r => r
  | Except.error e => (fs, "Error processing " ++ p ++ ": " ++ e)

/-- The `for filepath in files` loop: final filesystem and printed lines in
order. -/
def runLoop : List String → FS → FS × List String
  | [], fs => (fs, [])
  | p :: ps, fs =>
    let r := step fs p
    let rest := runLoop ps r.1
    (rest.1, r.2 :: rest.2)

/-- Outcome of a whole run: final filesystem, console lines, exit status. -/
structure RunResult where
  fs : FS
  lines : List String
  exitCode : Nat

/-- A run of the script on a filesystem.  The loop handles every per-file
failure internally, so the script always falls off the end of the `for`
loop and the interpreter exits with status 0. -/
def runScript (fs : FS) : RunResult :=
  { fs := (runLoop files fs).1
    lines := (runLoop files fs).2
    exitCode := 0 }

/-- The line the loop prints for path `p` when the filesystem read of `p`
yields `fs p`. -/
def lineFor (fs : FS) (p : String) : String :=
  match fs p with
  | some _ => "Fixed " ++ p
  | none => "Error processing " ++ p ++ ": " ++ fnfMsg p

/-- A canonical instance of the guard pattern: the whitespace run after
`if (!auth) \x7b` is `w1`, the run before the closing brace is `w2`, and
`Unauthorized` is single-quoted. -/
def mkGuard (w1 w2 : List Char) : List Char :=
  lit1 ++ w1 ++ lit2 ++ (quChar :: litU) ++ (quChar :: lit4) ++ w2 ++ [rbChar]

/-!
Concrete fixtures for the counterexample, the non-idempotence theorem and
the witnesses.  `ex1` is the end-to-end example file body of the spec:
a handler whose guard is followed by `\n  const data ...` and which ends
with `\n\x7d`.  `c1pre` is its prefix up to and including the guard, and
`c1mid` is everything strictly between the guard and the final brace, so
`ex1 = c1pre ++ (c1mid ++ [rbChar])`.
-/

/-- Prefix of `ex1` up to and including the authorization guard. -/
def c1pre : List Char :=
  ("export default async function handler(req, res) \x7b\n  const auth = await verify(req);\n  if (!auth) \x7b\n    return res.status(401).json(\x7b error: \x27Unauthorized\x27 \x7d);\n  \x7d").data

/-- The bytes of `ex1` strictly between the guard and the final brace. -/
def c1mid : List Char :=
  "\n  const data = await fetchData();\n  return res.json(data);\n".data

/-- The end-to-end example file body from the spec. -/
def ex1 : List Char :=
  ("export default async function handler(req, res) \x7b\n  const auth = await verify(req);\n  if (!auth) \x7b\n    return res.status(401).json(\x7b error: \x27Unauthorized\x27 \x7d);\n  \x7d\n  const data = await fetchData();\n  return res.json(data);\n\x7d").data

/-- The setup boilerplate without its two leading indentation spaces.  A
second pass of Transform A munches the whitespace that follows the guard,
which includes the leading indent of an already-inserted setup block, so
occurrences of the block are counted by its body. -/
def setupBody : List Char := dbCode.drop 2

/-- The teardown clause inserted by Transform B (the replacement text
without its leading newline-indent and trailing `\n\x7d`, both of which fuse
with neighbouring text when Transform B runs on already-patched input). -/
def teardownBody : List Char :=
  "\x7d finally \x7b\n    await sql.end();\n  \x7d".data

/-- An empty filesystem: every read fails. -/
def fs0 : FS := fun _ => none

/-- Content with no guard occurrence and no trailing newline-brace. -/
def sW : List Char := "const x = 1;\n".data

/-- A filesystem where every path holds `sW`. -/
def fsW : FS := fun _ => some sW

/-- A small guard-free content sample. -/
def sHello : List Char := "export default handler;\n".data

/-- Witness fixture: text before the trailing closer. -/
def c2u : List Char := "const a = 1;".data

/-- Witness fixture: trailing whitespace after the final brace. -/
def c2w : List Char := "\n\n".data

/-- Witness fixture: text before the trailing closer for Transform B. -/
def c10u : List Char := "foo();".data

/-- Witness fixture: trailing whitespace for Transform B. -/
def c10w : List Char := "  \t".data

/-- Witness fixture: prefix before the guard. -/
def wP : List Char := "A\n".data

/-- Witness fixture: a one-newline whitespace run. -/
def wNl : List Char := ['\n']

/-- Witness fixture: the code following the guard's whitespace run. -/
def wM : List Char := "z;".data

/-- Witness fixture: a full input with one guard and a trailing closer. -/
def wIn : List Char := wP ++ (mkGuard wNl wNl ++ (wNl ++ (wM ++ [nlChar, rbChar])))

/-! ### Helper lemmas about the matchers -/

theorem matchLit_append (l s : List Char) : matchLit l (l ++ s) = some s := by
  induction l with
  | nil => rfl
  | cons c cs ih => simp [matchLit, ih]

theorem takeWhile_space_append {w r : List Char} (hw : allSpace w = true)
    (hr : noSpaceHead r = true) : (w ++ r).takeWhile isPySpace = w := by
  induction w with
  | nil =>
    cases r with
    | nil => rfl
    | cons c cs =>
      simp only [noSpaceHead, Bool.not_eq_true'] at hr
      simp [List.takeWhile, hr]
  | cons c cs ih =>
    simp only [allSpace, List.all_cons, Bool.and_eq_true] at hw
    simp only [allSpace] at ih
    simp [List.takeWhile, hw.1, ih hw.2]

theorem dropWhile_space_append {w r : List Char} (hw : allSpace w = true)
    (hr : noSpaceHead r = true) : (w ++ r).dropWhile isPySpace = r := by
  induction w with
  | nil =>
    cases r with
    | nil => rfl
    | cons c cs =>
      simp only [noSpaceHead, Bool.not_eq_true'] at hr
      simp [List.dropWhile, hr]
  | cons c cs ih =>
    simp only [allSpace, List.all_cons, Bool.and_eq_true] at hw
    simp only [allSpace] at ih
    simp [List.dropWhile, hw.1, ih hw.2]

/-! ### Helper lemmas about Transform B -/

theorem subB_decomp (u w : List Char) (hw : allSpace w = true) :
    subB (u ++ nlChar :: rbChar :: w) = u ++ tdRepl := by
  induction u with
  | nil =>
    simp only [List.nil_append, subB]
    have h : isTailMatch nlChar (rbChar :: w) = true := by
      simp [isTailMatch, hw]
    simp [h]
  | cons c cs ih =>
    simp only [List.cons_append, subB]
    have h : isTailMatch c (cs ++ nlChar :: rbChar :: w) = false := by
      cases cs with
      | nil =>
        have h1 : decide (nlChar = rbChar) = false := by decide
        simp [isTailMatch, h1]
      | cons d ds =>
        have h2 : isPySpace rbChar = false := by decide
        simp [isTailMatch, allSpace, List.all_append, List.all_cons, h2]
    simp [h, ih]

theorem subB_id (s : List Char) (h : hasTail s = false) : subB s = s := by
  induction s with
  | nil => rfl
  | cons c cs ih =>
    simp only [hasTail, Bool.or_eq_false_iff] at h
    simp [subB, h.1, ih h.2]

/-- Soundness of `hasTail`: it holds exactly on the strings that end with a
newline, a closing brace and trailing whitespace. -/
theorem hasTail_iff (s : List Char) :
    hasTail s = true ↔ ∃ u w, allSpace w = true ∧ s = u ++ nlChar :: rbChar :: w := by
  constructor
  · intro h
    induction s with
    | nil => simp [hasTail] at h
    | cons c cs ih =>
      simp only [hasTail, Bool.or_eq_true] at h
      cases h with
      | inl h =>
        cases cs with
        | nil => simp [isTailMatch] at h
        | cons d ds =>
          simp only [isTailMatch, Bool.and_eq_true, decide_eq_true_eq] at h
          exact ⟨[], ds, h.2.2, by simp [h.1, h.2.1]⟩
      | inr h =>
        obtain ⟨u, w, hw, he⟩ := ih h
        exact ⟨c :: u, w, hw, by simp [he]⟩
  · rintro ⟨u, w, hw, rfl⟩
    induction u with
    | nil => simp [hasTail, isTailMatch, hw]
    | cons c cs ih => simp [hasTail, ih, Bool.or_true]

/-! ### Helper lemmas about substring occurrence -/

theorem startsWithList_self (m v : List Char) :
    startsWithList m (m ++ v) = true := by
  simp [startsWithList, matchLit_append]

theorem containsSub_append_mid (u m v : List Char) :
    containsSub m (u ++ (m ++ v)) = true := by
  induction u with
  | nil =>
    rw [List.nil_append]
    have hs := startsWithList_self m v
    cases hm : m ++ v with
    | nil =>
      rw [hm] at hs
      simpa [containsSub] using hs
    | cons c cs =>
      rw [hm] at hs
      simp [containsSub, hs]
  | cons c cs ih =>
    simp [containsSub, ih, Bool.or_true]

/-! ### Helper lemmas about the driver loop -/

theorem step_of_none {fs : FS} {p : String} (h : fs p = none) :
    step fs p = (fs, "Error processing " ++ p ++ ": " ++ fnfMsg p) := by
  simp [step, processFileE, readFile, h]

theorem step_of_some {fs : FS} {p : String} {c : List Char} (h : fs p = some c) :
    step fs p = (fun q => if q = p then some (patchContent c) else fs q,
                 "Fixed " ++ p) := by
  simp [step, processFileE, readFile, h]

theorem step_fst_apply (fs : FS) (p q : String) (h : q ≠ p) :
    (step fs p).1 q = fs q := by
  cases hc : fs p with
  | none => simp [step_of_none hc]
  | some c => simp [step_of_some hc, h]

theorem step_snd (fs : FS) (p : String) : (step fs p).2 = lineFor fs p := by
  cases hc : fs p with
  | none => simp [step_of_none hc, lineFor, hc]
  | some c => simp [step_of_some hc, lineFor, hc]

theorem runLoop_frame (ps : List String) (fs : FS) (q : String)
    (h : q ∉ ps) : (runLoop ps fs).1 q = fs q := by
  induction ps generalizing fs with
  | nil => rfl
  | cons p ps ih =>
    simp only [List.mem_cons, not_or] at h
    simp only [runLoop]
    rw [ih _ h.2, step_fst_apply _ _ _ h.1]

theorem runLoop_lines (ps : List String) (fs : FS) (h : ps.Nodup) :
    (runLoop ps fs).2 = ps.map (lineFor fs) := by
  induction ps generalizing fs with
  | nil => rfl
  | cons p ps ih =>
    rw [List.nodup_cons] at h
    simp only [runLoop, List.map_cons]
    rw [step_snd, ih _ h.2]
    congr 1
    apply List.map_congr_left
    intro a ha
    have hne : a ≠ p := fun he => h.1 (he ▸ ha)
    simp [lineFor, step_fst_apply _ _ _ hne]

theorem runLoop_length (ps : List String) (fs : FS) :
    (runLoop ps fs).2.length = ps.length := by
  induction ps generalizing fs with
  | nil => rfl
  | cons p ps ih => simp [runLoop, ih]

theorem runLoop_none (ps : List String) (fs : FS) (p : String)
    (h : fs p = none) : (runLoop ps fs).1 p = none := by
  induction ps generalizing fs with
  | nil => exact h
  | cons q ps ih =>
    simp only [runLoop]
    cases hc : fs q with
    | none =>
      apply ih
      simp [step_of_none hc, h]
    | some c =>
      apply ih
      have hne : p ≠ q := fun he => by rw [he, hc] at h; exact Option.noConfusion h
      simp [step_of_some hc, hne, h]

/-! ### Helper lemmas about Transform A -/

theorem noSpaceHead_lit2_append (x : List Char) : noSpaceHead (lit2 ++ x) = true := rfl

theorem noSpaceHead_rb (x : List Char) : noSpaceHead (rbChar :: x) = true := rfl

theorem isQuote_qu : isQuote quChar = true := rfl

/-- The guard matcher succeeds on a canonical guard instance followed by a
nonempty whitespace run `w3` and a non-whitespace continuation `r`: the
captured group is the guard itself and the scan resumes at `r` (the run
`w3` is consumed by the trailing `\s+` of the pattern). -/
theorem matchGuardAt_canon (w1 w2 w3 r : List Char)
    (h1 : allSpace w1 = true) (h1n : w1 ≠ [])
    (h2 : allSpace w2 = true) (h2n : w2 ≠ [])
    (h3 : allSpace w3 = true) (h3n : w3 ≠ [])
    (hr : noSpaceHead r = true) :
    matchGuardAt (mkGuard w1 w2 ++ (w3 ++ r)) = some (mkGuard w1 w2, r) := by
  have e1 : mkGuard w1 w2 ++ (w3 ++ r) =
      lit1 ++ (w1 ++ (lit2 ++ (quChar :: (litU ++ (quChar ::
        (lit4 ++ (w2 ++ (rbChar :: (w3 ++ r))))))))) := by
    simp [mkGuard, List.append_assoc]
  have hw1e : w1.isEmpty = false := by
    cases w1 with
    | nil => exact absurd rfl h1n
    | cons a as => rfl
  have hw2e : w2.isEmpty = false := by
    cases w2 with
    | nil => exact absurd rfl h2n
    | cons a as => rfl
  have hw3e : w3.isEmpty = false := by
    cases w3 with
    | nil => exact absurd rfl h3n
    | cons a as => rfl
  have tw1 : ∀ x, (w1 ++ (lit2 ++ x)).takeWhile isPySpace = w1 :=
    fun x => takeWhile_space_append h1 (noSpaceHead_lit2_append x)
  have dw1 : ∀ x, (w1 ++ (lit2 ++ x)).dropWhile isPySpace = lit2 ++ x :=
    fun x => dropWhile_space_append h1 (noSpaceHead_lit2_append x)
  have tw2 : ∀ x, (w2 ++ (rbChar :: x)).takeWhile isPySpace = w2 :=
    fun x => takeWhile_space_append h2 (noSpaceHead_rb x)
  have dw2 : ∀ x, (w2 ++ (rbChar :: x)).dropWhile isPySpace = rbChar :: x :=
    fun x => dropWhile_space_append h2 (noSpaceHead_rb x)
  have tw3 : (w3 ++ r).takeWhile isPySpace = w3 := takeWhile_space_append h3 hr
  have dw3 : (w3 ++ r).dropWhile isPySpace = r := dropWhile_space_append h3 hr
  rw [e1]
  simp [matchGuardAt, matchLit_append, tw1, dw1, tw2, dw2, tw3, dw3,
    hw1e, hw2e, hw3e, isQuote_qu, mkGuard, List.append_assoc]

/-- With enough fuel, the Transform A scan leaves a match-free string
unchanged. -/
theorem subAGo_id (n : Nat) (s : List Char) (h : s.length ≤ n)
    (hg : guardFree s = true) : subAGo n s = s := by
  induction n generalizing s with
  | zero => rfl
  | succ n ih =>
    cases s with
    | nil => rfl
    | cons c cs =>
      simp only [guardFree, Bool.and_eq_true, Option.isNone_iff_eq_none] at hg
      simp only [subAGo, hg.1]
      rw [ih cs (by simp at h; omega) hg.2]

theorem subA_id (s : List Char) (hg : guardFree s = true) : subA s = s :=
  subAGo_id s.length s (Nat.le_refl _) hg

/-- The Transform A scan copies a match-free leading segment verbatim. -/
theorem subAGo_skip (p : List Char) (n : Nat) (rest : List Char)
    (h : matchFreeBefore (p ++ rest) p.length = true) :
    subAGo (p.length + n) (p ++ rest) = p ++ subAGo n rest := by
  induction p with
  | nil => simp
  | cons c cs ih =>
    simp only [matchFreeBefore, List.cons_append, List.length_cons,
      Bool.and_eq_true, Option.isNone_iff_eq_none] at h
    have h1 : matchGuardAt (c :: (cs ++ rest)) = none := h.1
    have h2 : matchFreeBefore (cs ++ rest) cs.length = true := h.2
    have e : cs.length + 1 + n = (cs.length + n) + 1 := by omega
    simp only [List.cons_append, List.length_cons, e, subAGo, h1]
    rw [ih h2]

theorem subAGo_match (n : Nat) (s g rest : List Char) (hs : s ≠ [])
    (hm : matchGuardAt s = some (g, rest)) :
    subAGo (n + 1) s = g ++ sepA ++ dbCode ++ subAGo n rest := by
  cases s with
  | nil => exact absurd rfl hs
  | cons c cs => simp [subAGo, hm]

/-- Transform A on a string with exactly one guard occurrence (match-free
before it, guard-free after it): the guard is kept, two newlines and the
setup block are inserted, the whitespace run `w3` that followed the guard
is consumed, and the rest is copied verbatim. -/
theorem subA_decomp (p w1 w2 w3 m : List Char)
    (h1 : allSpace w1 = true) (h1n : w1 ≠ [])
    (h2 : allSpace w2 = true) (h2n : w2 ≠ [])
    (h3 : allSpace w3 = true) (h3n : w3 ≠ [])
    (hm : noSpaceHead m = true) (hmn : m ≠ [])
    (hfree : matchFreeBefore
      (p ++ (mkGuard w1 w2 ++ (w3 ++ (m ++ [nlChar, rbChar])))) p.length = true)
    (hg : guardFree (m ++ [nlChar, rbChar]) = true) :
    subA (p ++ (mkGuard w1 w2 ++ (w3 ++ (m ++ [nlChar, rbChar])))) =
      p ++ (mkGuard w1 w2 ++ (sepA ++ (dbCode ++ (m ++ [nlChar, rbChar])))) := by
  have hr : noSpaceHead (m ++ [nlChar, rbChar]) = true := by
    cases m with
    | nil => exact absurd rfl hmn
    | cons a as => simpa [noSpaceHead] using hm
  have hmatch := matchGuardAt_canon w1 w2 w3 (m ++ [nlChar, rbChar])
    h1 h1n h2 h2n h3 h3n hr
  have hne : mkGuard w1 w2 ++ (w3 ++ (m ++ [nlChar, rbChar])) ≠ [] := by
    intro h0
    rw [h0] at hmatch
    have hnil : matchGuardAt ([] : List Char) = none := by decide
    rw [hnil] at hmatch
    exact Option.noConfusion hmatch
  obtain ⟨c, cs, hcs⟩ := List.exists_cons_of_ne_nil hne
  have hk : (mkGuard w1 w2 ++ (w3 ++ (m ++ [nlChar, rbChar]))).length
      = cs.length + 1 := by rw [hcs]; simp
  have hlen : (m ++ [nlChar, rbChar]).length ≤ cs.length := by
    have h12 : lit1.length = 12 := by decide
    simp [mkGuard, List.length_append, h12] at hk
    simp [List.length_append]
    omega
  unfold subA
  rw [List.length_append, subAGo_skip _ _ _ hfree]
  congr 1
  rw [hk, subAGo_match _ _ _ _ hne hmatch, subAGo_id _ _ hlen hg]
  simp [List.append_assoc]

/-! ### Claim theorems -/

set_option maxRecDepth 200000 in
/-- Claim C1, counterexample.  The claim says that for an input containing
the guard followed eventually by a trailing newline-plus-closing-brace,
every byte other than the two inserted blocks is preserved unchanged and
in order.  On the spec's own end-to-end example `ex1 = c1pre ++ (c1mid ++
[rbChar])` (guard at the end of `c1pre`), a compliant output would have
the form `(c1pre ++ setup) ++ (c1mid ++ (teardown ++ [rbChar]))` for some
inserted blocks; no such decomposition exists, because Transform A's
trailing `\s+` consumes the indentation whitespace that followed the
guard, so the original bytes `c1mid` no longer occur in the output. -/
theorem c1_counterexample :
    ex1 = c1pre ++ (c1mid ++ [rbChar]) ∧
    ¬ ∃ su td : List Char,
      patchContent ex1 = (c1pre ++ su) ++ (c1mid ++ (td ++ [rbChar])) := by
  refine ⟨by decide, ?_⟩
  rintro ⟨su, td, h⟩
  have h2 : containsSub c1mid (patchContent ex1) = true := by
    rw [h]
    exact containsSub_append_mid _ _ _
  have h3 : containsSub c1mid (patchContent ex1) = false := by decide
  rw [h3] at h2
  exact Bool.noConfusion h2

/-- Claim C1, amended.  For an input consisting of a match-free prefix `p`,
one guard occurrence `mkGuard w1 w2`, its trailing whitespace run `w3`, a
guard-free body `m` starting with a non-whitespace character, and the
trailing `\n\x7d`: the patched output is the prefix, the guard, two
newlines, the setup block, the body, and the teardown suffix.  Every
original byte is preserved in order except the whitespace run `w3`
immediately following the guard (replaced by the two newlines) and the
trailing `\n\x7d` (replaced by the teardown suffix, which re-closes the
function). -/
theorem c1_amended_patch_layout (p w1 w2 w3 m : List Char)
    (h1 : allSpace w1 = true) (h1n : w1 ≠ [])
    (h2 : allSpace w2 = true) (h2n : w2 ≠ [])
    (h3 : allSpace w3 = true) (h3n : w3 ≠ [])
    (hm : noSpaceHead m = true) (hmn : m ≠ [])
    (hfree : matchFreeBefore
      (p ++ (mkGuard w1 w2 ++ (w3 ++ (m ++ [nlChar, rbChar])))) p.length = true)
    (hg : guardFree (m ++ [nlChar, rbChar]) = true) :
    patchContent (p ++ (mkGuard w1 w2 ++ (w3 ++ (m ++ [nlChar, rbChar])))) =
      (p ++ (mkGuard w1 w2 ++ (sepA ++ (dbCode ++ m)))) ++ tdRepl := by
  rw [patchContent, subA_decomp p w1 w2 w3 m h1 h1n h2 h2n h3 h3n hm hmn hfree hg]
  have e : p ++ (mkGuard w1 w2 ++ (sepA ++ (dbCode ++ (m ++ [nlChar, rbChar]))))
      = (p ++ (mkGuard w1 w2 ++ (sepA ++ (dbCode ++ m)))) ++ nlChar :: rbChar :: [] := by
    simp [List.append_assoc]
  rw [e, subB_decomp _ [] rfl]

/-- Witness for the amended C1 theorem at a concrete input. -/
theorem c1_amended_patch_layout_witness :
    (allSpace wNl = true ∧ wNl ≠ [] ∧ noSpaceHead wM = true ∧ wM ≠ [] ∧
     matchFreeBefore wIn wP.length = true ∧
     guardFree (wM ++ [nlChar, rbChar]) = true) ∧
    patchContent wIn =
      (wP ++ (mkGuard wNl wNl ++ (sepA ++ (dbCode ++ wM)))) ++ tdRepl :=
  ⟨⟨by decide, by decide, by decide, by decide, by decide, by decide⟩,
   c1_amended_patch_layout wP wNl wNl wNl wM (by decide) (by decide) (by decide)
     (by decide) (by decide) (by decide) (by decide) (by decide) (by decide)
     (by decide)⟩

/-- Claim C2: on an input with no guard occurrence that ends with a
newline, a closing brace and optional trailing whitespace, Transform A
inserts nothing (it is the identity) and Transform B still replaces the
trailing closer by the teardown suffix. -/
theorem c2_teardown_without_guard (u w : List Char)
    (hg : guardFree (u ++ nlChar :: rbChar :: w) = true)
    (hw : allSpace w = true) :
    subA (u ++ nlChar :: rbChar :: w) = u ++ nlChar :: rbChar :: w ∧
    patchContent (u ++ nlChar :: rbChar :: w) = u ++ tdRepl := by
  have ha := subA_id _ hg
  exact ⟨ha, by rw [patchContent, ha, subB_decomp _ _ hw]⟩

/-- Witness for C2 at a concrete guard-free input ending in a closer. -/
theorem c2_teardown_without_guard_witness :
    (guardFree (c2u ++ nlChar :: rbChar :: c2w) = true ∧ allSpace c2w = true) ∧
    (subA (c2u ++ nlChar :: rbChar :: c2w) = c2u ++ nlChar :: rbChar :: c2w ∧
     patchContent (c2u ++ nlChar :: rbChar :: c2w) = c2u ++ tdRepl) :=
  ⟨⟨by decide, by decide⟩, c2_teardown_without_guard c2u c2w (by decide) (by decide)⟩

set_option maxRecDepth 200000 in
/-- Claim C3: the combined transform is not idempotent.  On the spec's
example `ex1` (an originally-unpatched file containing the guard and the
trailing newline-plus-closing-brace), patching twice differs from patching
once: the setup boilerplate and the teardown clause each occur twice in the
twice-patched output and only once in the once-patched output.  (The second
pass munches the two-space indent of the first setup copy, so occurrences
are counted by `setupBody` and `teardownBody`, the blocks' bodies.) -/
theorem c3_not_idempotent :
    patchContent (patchContent ex1) ≠ patchContent ex1 ∧
    countSub setupBody (patchContent (patchContent ex1)) = 2 ∧
    countSub teardownBody (patchContent (patchContent ex1)) = 2 ∧
    countSub setupBody (patchContent ex1) = 1 ∧
    countSub teardownBody (patchContent ex1) = 1 :=
  ⟨by decide, by decide, by decide, by decide, by decide⟩

/-- Claim C4: for a listed path whose read fails (the path is absent), the
run prints the error line identifying the path and the failure reason, the
path's state is unchanged (still absent: nothing was written), and every
path in the list still gets its own output line. -/
theorem c4_missing_file (fs : FS) (p : String) (hp : p ∈ files)
    (h : fs p = none) :
    ("Error processing " ++ p ++ ": " ++ fnfMsg p) ∈ (runScript fs).lines ∧
    (runScript fs).fs p = none ∧
    (runScript fs).lines.length = files.length := by
  refine ⟨?_, runLoop_none files fs p h, runLoop_length files fs⟩
  show _ ∈ (runLoop files fs).2
  rw [runLoop_lines files fs (by decide)]
  have hline : lineFor fs p = "Error processing " ++ p ++ ": " ++ fnfMsg p := by
    simp [lineFor, h]
  rw [← hline]
  exact List.mem_map_of_mem _ hp

/-- Witness for C4: the empty filesystem and the first listed path. -/
theorem c4_missing_file_witness :
    ("api/tenants/index.ts" ∈ files ∧ fs0 "api/tenants/index.ts" = none) ∧
    (("Error processing " ++ "api/tenants/index.ts" ++ ": " ++
        fnfMsg "api/tenants/index.ts") ∈ (runScript fs0).lines ∧
     (runScript fs0).fs "api/tenants/index.ts" = none ∧
     (runScript fs0).lines.length = files.length) :=
  ⟨⟨by decide, rfl⟩, c4_missing_file fs0 "api/tenants/index.ts" (by decide) rfl⟩

/-- Claim C5: for every filesystem the run is total, every per-file failure
is absorbed inside the loop (`step` never propagates an error), the exit
status is 0, and all five files are processed. -/
theorem c5_run_terminates_exit_zero (fs : FS) :
    (runScript fs).exitCode = 0 ∧ (runScript fs).lines.length = files.length :=
  ⟨rfl, runLoop_length files fs⟩

/-- Claim C6: the console output is exactly one line per listed file, in
list order: `Fixed (path)` when the file is read successfully, or
`Error processing (path): (error)` when the read fails, and nothing else. -/
theorem c6_console_lines (fs : FS) :
    (runScript fs).lines = files.map (lineFor fs) :=
  runLoop_lines files fs (by decide)

/-- Claim C7: the run writes only the five hardcoded paths; the content of
every other path is unchanged after the run. -/
theorem c7_other_paths_unchanged (fs : FS) (q : String) (h : q ∉ files) :
    (runScript fs).fs q = fs q :=
  runLoop_frame files fs q h

/-- Witness for C7 at a path outside the hardcoded list. -/
theorem c7_other_paths_unchanged_witness :
    ("README.md" ∉ files) ∧ (runScript fs0).fs "README.md" = fs0 "README.md" :=
  ⟨by decide, c7_other_paths_unchanged fs0 "README.md" (by decide)⟩

/-- Claim C8: Transform A is the identity on every input with no occurrence
of the guard pattern. -/
theorem c8_transformA_identity (s : List Char) (h : guardFree s = true) :
    subA s = s :=
  subA_id s h

/-- Witness for C8 on a concrete guard-free input. -/
theorem c8_transformA_identity_witness :
    guardFree sHello = true ∧ subA sHello = sHello :=
  ⟨by decide, c8_transformA_identity sHello (by decide)⟩

/-- Claim C9: on content with no guard occurrence and no trailing
newline-brace-whitespace, the combined transform is the identity, the file
is rewritten with byte-identical content (the filesystem is unchanged), and
the success line is still printed. -/
theorem c9_no_match_identity (fs : FS) (p : String) (s : List Char)
    (hread : fs p = some s) (hg : guardFree s = true)
    (ht : hasTail s = false) :
    patchContent s = s ∧ step fs p = (fs, "Fixed " ++ p) := by
  have hp : patchContent s = s := by
    rw [patchContent, subA_id _ hg, subB_id _ ht]
  refine ⟨hp, ?_⟩
  rw [step_of_some hread, hp]
  have hfs : (fun q => if q = p then some s else fs q) = fs := by
    funext q
    by_cases hq : q = p
    · rw [hq, if_pos rfl, hread]
    · rw [if_neg hq]
  rw [hfs]

/-- Witness for C9 on a concrete no-match content. -/
theorem c9_no_match_identity_witness :
    (fsW "api/units/index.ts" = some sW ∧ guardFree sW = true ∧
     hasTail sW = false) ∧
    (patchContent sW = sW ∧
     step fsW "api/units/index.ts" = (fsW, "Fixed " ++ "api/units/index.ts")) :=
  ⟨⟨rfl, by decide, by decide⟩,
   c9_no_match_identity fsW "api/units/index.ts" sW rfl (by decide) (by decide)⟩

/-- Claim C10: when the input ends with a newline, a closing brace and
optional trailing whitespace, Transform B performs exactly one replacement:
everything before that trailing closer is kept, and the closer together
with any whitespace after it is replaced by the fixed teardown suffix (so
the output ends exactly with it and the original trailing whitespace is
discarded). -/
theorem c10_transformB_single_replacement (u w : List Char)
    (hw : allSpace w = true) :
    subB (u ++ nlChar :: rbChar :: w) = u ++ tdRepl :=
  subB_decomp u w hw

/-- Witness for C10 with nonempty trailing whitespace. -/
theorem c10_transformB_single_replacement_witness :
    allSpace c10w = true ∧
    subB (c10u ++ nlChar :: rbChar :: c10w) = c10u ++ tdRepl :=
  ⟨by decide, c10_transformB_single_replacement c10u c10w (by decide)⟩

end FixDb
